import Mathlib

/-!
Verification of the dataset fixture installer
(`server/scripts/download_dataset.py`).

The script downloads a dataset, ensures a fixed target directory
`test/images` (relative to the script's parent-of-parent directory)
exists, walks the downloaded tree, and copies every file whose
lowercased name contains one of the extension markers `.jpg`, `.jpeg`,
`.png` as a substring and one of the keyword substrings `xray`,
`panoramic`, `intraoral` to a fixed slot name (`xray.jpg`,
`panoramic.jpg` or `intraoral.jpg`) chosen by keyword priority,
printing a progress line per copy.

The shallow embedding below models file names as lists of characters,
file contents as abstract byte lists, paths as lists of name segments,
and the target directory (and the filesystem's file store) as an
association list from paths to contents.  The walk is the input list of
files in enumeration order.
-/

namespace InsmileAI

/-- Bytes of a file, kept abstract. -/
abbrev Content := List Nat

/-- A filesystem path, as a list of name segments. -/
abbrev Path := List (List Char)

/-- A file produced by the directory walk: its filename component and
its contents. -/
structure SrcFile where
  name : List Char
  content : Content
deriving DecidableEq

/-- The mutable file store: an association list from paths to contents. -/
abbrev Dir := List (Path × Content)

/-- `file.lower()` on a filename. -/
def lowerName (n : List Char) : List Char := n.map Char.toLower

/-- `isPre p s` holds when `p` begins `s`. -/
def isPre : List Char → List Char → Bool
  | [], _ => true
  | _ :: _, [] => false
  | p :: ps, c :: cs => p == c && isPre ps cs

/-- Python's substring test `pat in s`. -/
def containsSub (pat : List Char) : List Char → Bool
  | [] => isPre pat []
  | c :: cs => isPre pat (c :: cs) || containsSub pat cs

/-- The extension markers `['.jpg', '.jpeg', '.png']` of line 19. -/
def extMarkers : List (List Char) := [".jpg".data, ".jpeg".data, ".png".data]

/-- The keyword terms `['xray', 'panoramic', 'intraoral']` of line 20. -/
def keywordTerms : List (List Char) := ["xray".data, "panoramic".data, "intraoral".data]

/-- `any(ext in file_lower for ext in ['.jpg', '.jpeg', '.png'])`. -/
def hasExt (low : List Char) : Bool := extMarkers.any (fun e => containsSub e low)

/-- `any(term in file_lower for term in ['xray', 'panoramic', 'intraoral'])`. -/
def hasKeyword (low : List Char) : Bool := keywordTerms.any (fun t => containsSub t low)

/-- A file is copied exactly when both nested `if` filters pass
(lines 19-20), both evaluated on the lowercased name. -/
def matchesName (n : List Char) : Bool :=
  hasExt (lowerName n) && hasKeyword (lowerName n)

/-- The `if 'xray' in file_lower / elif 'panoramic' / else` cascade of
lines 22-27, choosing the fixed target filename. -/
def targetName (n : List Char) : List Char :=
  if containsSub "xray".data (lowerName n) then "xray.jpg".data
  else if containsSub "panoramic".data (lowerName n) then "panoramic.jpg".data
  else "intraoral.jpg".data

/-- The three fixture slot names the script can ever write. -/
def slotNames : List (List Char) := ["xray.jpg".data, "panoramic.jpg".data, "intraoral.jpg".data]

/-- The progress line `print(f"Copied {file} to {target_name}")` of line 31. -/
def progressLine (f : SrcFile) : List Char :=
  "Copied ".data ++ f.name ++ " to ".data ++ targetName f.name

/-- Reading a file from the store. -/
def lookupFile : Dir → Path → Option Content
  | [], _ => none
  | e :: es, p => if e.1 = p then some e.2 else lookupFile es p

/-- `shutil.copy2(source_path, target_path)`: write `c` at path `p`,
overwriting any existing file there. -/
def writeFile : Dir → Path → Content → Dir
  | [], p, c => [(p, c)]
  | e :: es, p, c => if e.1 = p then (p, c) :: es else e :: writeFile es p c

/-- The walk loop of lines 16-31: fold over the files in enumeration
order, copying each match into `tdir` and recording a progress line. -/
def processFiles (tdir : Path) : Dir → List SrcFile → Dir × List (List Char)
  | d, [] => (d, [])
  | d, f :: fs =>
    if matchesName f.name then
      let r := processFiles tdir (writeFile d (tdir ++ [targetName f.name]) f.content) fs
      (r.1, progressLine f :: r.2)
    else processFiles tdir d fs

/-- `os.path.dirname`: drop the final path segment. -/
def dirname (p : Path) : Path := p.dropLast

/-- Line 12: `os.path.join(os.path.dirname(os.path.dirname(__file__)), 'test', 'images')`. -/
def testDirOf (script : Path) : Path := dirname (dirname script) ++ ["test".data, "images".data]

/-- The nonempty path segments leading down to `p`, in top-down order:
the directories `os.makedirs` creates when none of them exist. -/
def ancestorsOf : Path → List Path
  | [] => []
  | s :: rest => [s] :: (ancestorsOf rest).map (fun q => s :: q)

/-- Create one directory if it is absent; a no-op when it exists. -/
def addDir (ds : List Path) (q : Path) : List Path := if q ∈ ds then ds else ds ++ [q]

/-- Line 13: `os.makedirs(test_dir, exist_ok=True)` — create the target
directory and every missing intermediate directory. -/
def makedirs (ds : List Path) (p : Path) : List Path := (ancestorsOf p).foldl addDir ds

/-- The filesystem state: the set of existing directories and the file
store. -/
structure FS where
  dirs : List Path
  files : Dir
deriving DecidableEq

/-- The whole installer body after the download returned `srcFiles`:
create the target directory (line 13) and then run the copy loop
(lines 16-31).  Returns the final filesystem and the progress lines. -/
def installFixtures (script : Path) (fs : FS) (srcFiles : List SrcFile) :
    FS × List (List Char) :=
  let tdir := testDirOf script
  let r := processFiles tdir fs.files srcFiles
  (⟨makedirs fs.dirs tdir, r.1⟩, r.2)

/-- The two fatal error classes of the run. -/
inductive InstallError where
  | downloadError : InstallError
  | filesystemError : InstallError
deriving DecidableEq

/-- The copy loop when a copy may raise: `copyFails f` says
`shutil.copy2` raises on file `f`.  The script catches nothing, so the
first failing copy aborts the loop; the error carries the file store as
it was at that moment — no rollback happens. -/
def processFilesExc (copyFails : SrcFile → Bool) (tdir : Path) :
    Dir → List SrcFile → Except Dir (Dir × List (List Char))
  | d, [] => .ok (d, [])
  | d, f :: fs =>
    if matchesName f.name then
      if copyFails f then .error d
      else
        match processFilesExc copyFails tdir (writeFile d (tdir ++ [targetName f.name]) f.content) fs with
        | .ok r => .ok (r.1, progressLine f :: r.2)
        | .error d' => .error d'
    else processFilesExc copyFails tdir d fs

/-- The whole run with fallible collaborators: the download may fail
(line 8), `os.makedirs` may fail (line 13), and each copy may fail
(line 30).  No failure is caught; each propagates with the filesystem
left exactly as it was. -/
def installFixturesExc (download : Except Unit (List SrcFile)) (mkdirFails : Bool)
    (copyFails : SrcFile → Bool) (script : Path) (fs : FS) :
    Except (InstallError × FS) (FS × List (List Char)) :=
  match download with
  | .error _ => .error (.downloadError, fs)
  | .ok srcFiles =>
    if mkdirFails then .error (.filesystemError, fs)
    else
      let tdir := testDirOf script
      let ds := makedirs fs.dirs tdir
      match processFilesExc copyFails tdir fs.files srcFiles with
      | .error d => .error (.filesystemError, ⟨ds, d⟩)
      | .ok r => .ok (⟨ds, r.1⟩, r.2)

/-- A small-step description of the copy loop, used to state that the
loop is deterministic: `RunRel tdir d files d' out` relates an initial
file store and walk order to a final store and progress output. -/
inductive RunRel (tdir : Path) : Dir → List SrcFile → Dir → List (List Char) → Prop where
  | done (d : Dir) : RunRel tdir d [] d []
  | copy (d : Dir) (f : SrcFile) (fs : List SrcFile) (d' : Dir) (out : List (List Char)) :
      matchesName f.name = true →
      RunRel tdir (writeFile d (tdir ++ [targetName f.name]) f.content) fs d' out →
      RunRel tdir d (f :: fs) d' (progressLine f :: out)
  | skip (d : Dir) (f : SrcFile) (fs : List SrcFile) (d' : Dir) (out : List (List Char)) :
      matchesName f.name = false →
      RunRel tdir d fs d' out →
      RunRel tdir d (f :: fs) d' out

/-- Spec-side reading of claim C3: the last file of the walk, in
enumeration order, that matched the filters and was classified into
`slot`. -/
def lastMatchFor (files : List SrcFile) (slot : List Char) : Option SrcFile :=
  files.reverse.find? (fun f => matchesName f.name && (targetName f.name == slot))

/-- The content the loop leaves at path `p`, described per file: a later
file's write shadows an earlier one. -/
def lastWrite (tdir : Path) : List SrcFile → Path → Option Content
  | [], _ => none
  | f :: fs, p =>
    match lastWrite tdir fs p with
    | some c => some c
    | none =>
      if matchesName f.name = true ∧ tdir ++ [targetName f.name] = p then some f.content
      else none

/-! ### Helper lemmas -/

theorem isPre_iff (p s : List Char) : isPre p s = true ↔ ∃ r, s = p ++ r := by
  induction p generalizing s with
  | nil => simp [isPre]
  | cons a ps ih =>
    cases s with
    | nil => simp [isPre]
    | cons c cs =>
      simp only [isPre, Bool.and_eq_true, beq_iff_eq, ih, List.cons_append, List.cons.injEq]
      constructor
      · rintro ⟨h1, r, h2⟩
        exact ⟨r, h1.symm, h2⟩
      · rintro ⟨r, h1, h2⟩
        exact ⟨h1.symm, r, h2⟩

theorem containsSub_iff (pat s : List Char) :
    containsSub pat s = true ↔ ∃ l r, s = l ++ pat ++ r := by
  induction s with
  | nil =>
    simp only [containsSub, isPre_iff]
    constructor
    · rintro ⟨r, h⟩
      exact ⟨[], r, by simpa using h⟩
    · rintro ⟨l, r, h⟩
      exact ⟨r, by rw [h]; cases l <;> simp_all⟩
  | cons c cs ih =>
    simp only [containsSub, Bool.or_eq_true, isPre_iff, ih]
    constructor
    · rintro (⟨r, h⟩ | ⟨l, r, h⟩)
      · exact ⟨[], r, by simpa using h⟩
      · exact ⟨c :: l, r, by simp [h]⟩
    · rintro ⟨l, r, h⟩
      cases l with
      | nil => exact .inl ⟨r, by simpa using h⟩
      | cons a l' =>
        injection h with h1 h2
        exact .inr ⟨l', r, h2⟩

theorem lookupFile_writeFile (d : Dir) (q p : Path) (c : Content) :
    lookupFile (writeFile d q c) p = if q = p then some c else lookupFile d p := by
  induction d with
  | nil =>
    simp only [writeFile, lookupFile]
  | cons e es ih =>
    simp only [writeFile]
    by_cases h1 : e.1 = q
    · rw [if_pos h1]
      by_cases h2 : q = p
      · subst h2
        simp [lookupFile]
      · have h3 : ¬ e.1 = p := fun h => h2 (h1.symm.trans h)
        simp [lookupFile, h2, h3]
    · rw [if_neg h1]
      by_cases h2 : q = p
      · subst h2
        simp [lookupFile, h1, ih]
      · simp [lookupFile, ih, h2]

theorem lookupFile_processFiles (tdir : Path) (files : List SrcFile) (d : Dir) (p : Path) :
    lookupFile (processFiles tdir d files).1 p =
      match lastWrite tdir files p with
      | some c => some c
      | none => lookupFile d p := by
  induction files generalizing d with
  | nil => simp [processFiles, lastWrite]
  | cons f fs ih =>
    by_cases hm : matchesName f.name
    · simp only [processFiles, hm, if_pos, lastWrite]
      rw [ih]
      cases hlw : lastWrite tdir fs p with
      | some c => simp
      | none =>
        simp only [lookupFile_writeFile, hm, true_and]
        by_cases hp : tdir ++ [targetName f.name] = p <;> simp [hp]
    · simp only [processFiles, hm, if_neg, Bool.false_eq_true, not_false_iff, lastWrite]
      rw [ih]
      cases hlw : lastWrite tdir fs p with
      | some c => simp
      | none => simp [hm]

theorem processFiles_snd (tdir : Path) (files : List SrcFile) (d : Dir) :
    (processFiles tdir d files).2
      = (files.filter (fun f => matchesName f.name)).map progressLine := by
  induction files generalizing d with
  | nil => simp [processFiles]
  | cons f fs ih =>
    by_cases hm : matchesName f.name <;>
      simp [processFiles, hm, ih, List.filter_cons]

theorem find?_match_append (l₁ l₂ : List SrcFile) (p : SrcFile → Bool) :
    (l₁ ++ l₂).find? p =
      match l₁.find? p with
      | some x => some x
      | none => l₂.find? p := by
  induction l₁ with
  | nil => simp
  | cons a l ih =>
    by_cases h : p a <;> simp [List.find?_cons, h, ih]

theorem lastWrite_slot (tdir : Path) (files : List SrcFile) (slot : List Char) :
    lastWrite tdir files (tdir ++ [slot]) = (lastMatchFor files slot).map (fun f => f.content) := by
  induction files with
  | nil => simp [lastWrite, lastMatchFor]
  | cons f fs ih =>
    simp only [lastWrite, lastMatchFor, List.reverse_cons]
    rw [find?_match_append]
    rw [show (lastMatchFor fs slot) = fs.reverse.find? (fun f => matchesName f.name && (targetName f.name == slot)) from rfl] at ih
    cases hf : fs.reverse.find? (fun f => matchesName f.name && (targetName f.name == slot)) with
    | some g => rw [hf] at ih; rw [ih]; simp
    | none =>
      rw [hf] at ih; rw [ih]
      simp only [Option.map_none, List.find?_cons, List.find?_nil]
      by_cases hm : matchesName f.name
      · by_cases ht : targetName f.name = slot
        · simp [hm, ht]
        · have hne : ¬ (tdir ++ [targetName f.name] = tdir ++ [slot]) := by
            simp [ht]
          have hb : (targetName f.name == slot) = false := beq_eq_false_iff_ne.mpr ht
          simp [hm, hne, hb]
      · simp [hm]

theorem targetName_mem_slotNames (n : List Char) : targetName n ∈ slotNames := by
  unfold targetName slotNames
  by_cases h1 : containsSub "xray".data (lowerName n)
  · simp [h1]
  · by_cases h2 : containsSub "panoramic".data (lowerName n) <;> simp [h1, h2]

theorem lastWrite_eq_some (tdir : Path) (files : List SrcFile) (p : Path) (c : Content)
    (h : lastWrite tdir files p = some c) :
    ∃ f, f ∈ files ∧ matchesName f.name = true ∧ p = tdir ++ [targetName f.name]
      ∧ c = f.content := by
  induction files with
  | nil => simp [lastWrite] at h
  | cons f fs ih =>
    simp only [lastWrite] at h
    cases hlw : lastWrite tdir fs p with
    | some c' =>
      rw [hlw] at h
      obtain ⟨g, hg, h1, h2, h3⟩ := ih (hlw.trans (by injection h with h'; rw [h']))
      exact ⟨g, List.mem_cons_of_mem f hg, h1, h2, h3⟩
    | none =>
      rw [hlw] at h
      by_cases hc : matchesName f.name = true ∧ tdir ++ [targetName f.name] = p
      · rw [if_pos hc] at h
        injection h with h'
        exact ⟨f, List.mem_cons_self f fs, hc.1, hc.2.symm, h'.symm⟩
      · rw [if_neg hc] at h
        exact absurd h (by simp)

theorem mem_addDir_self (ds : List Path) (q : Path) : q ∈ addDir ds q := by
  unfold addDir
  split
  · assumption
  · simp

theorem mem_addDir_of_mem (ds : List Path) (q r : Path) (h : r ∈ ds) : r ∈ addDir ds q := by
  unfold addDir
  split
  · exact h
  · simp [h]

theorem mem_foldl_addDir_of_mem (L : List Path) (ds : List Path) (r : Path) (h : r ∈ ds) :
    r ∈ L.foldl addDir ds := by
  induction L generalizing ds with
  | nil => exact h
  | cons a L ih => exact ih _ (mem_addDir_of_mem _ _ _ h)

theorem mem_foldl_addDir_of_mem_list (L : List Path) (ds : List Path) (q : Path) (h : q ∈ L) :
    q ∈ L.foldl addDir ds := by
  induction L generalizing ds with
  | nil => simp at h
  | cons a L ih =>
    rw [List.foldl_cons]
    rcases List.mem_cons.mp h with rfl | h'
    · exact mem_foldl_addDir_of_mem _ _ _ (mem_addDir_self _ _)
    · exact ih _ h'

theorem foldl_addDir_of_subset (L : List Path) (ds : List Path) (h : ∀ q ∈ L, q ∈ ds) :
    L.foldl addDir ds = ds := by
  induction L with
  | nil => rfl
  | cons a L ih =>
    have ha : a ∈ ds := h a (List.mem_cons_self a L)
    have : addDir ds a = ds := by unfold addDir; rw [if_pos ha]
    simp only [List.foldl_cons, this]
    exact ih (fun q hq => h q (List.mem_cons_of_mem a hq))

theorem mem_of_mem_foldl_addDir (L : List Path) (ds : List Path) (r : Path)
    (h : r ∈ L.foldl addDir ds) : r ∈ ds ∨ r ∈ L := by
  induction L generalizing ds with
  | nil => exact .inl h
  | cons a L ih =>
    rcases ih (addDir ds a) h with h' | h'
    · unfold addDir at h'
      split at h'
      · exact .inl h'
      · rcases List.mem_append.mp h' with h'' | h''
        · exact .inl h''
        · simp only [List.mem_singleton] at h''
          exact .inr (h'' ▸ List.mem_cons_self a L)
    · exact .inr (List.mem_cons_of_mem a h')

theorem makedirs_idem (ds : List Path) (p : Path) :
    makedirs (makedirs ds p) p = makedirs ds p := by
  unfold makedirs
  exact foldl_addDir_of_subset _ _ (fun q hq => mem_foldl_addDir_of_mem_list _ _ _ hq)

theorem self_mem_ancestorsOf (p : Path) (h : p ≠ []) : p ∈ ancestorsOf p := by
  induction p with
  | nil => exact absurd rfl h
  | cons s rest ih =>
    cases rest with
    | nil => simp [ancestorsOf]
    | cons t rest' =>
      show s :: t :: rest' ∈ [s] :: (ancestorsOf (t :: rest')).map (fun q => s :: q)
      exact List.mem_cons_of_mem _ (List.mem_map.mpr ⟨t :: rest', ih (by simp), rfl⟩)

theorem runRel_eq_processFiles (tdir : Path) (d : Dir) (files : List SrcFile)
    (d' : Dir) (out : List (List Char)) (h : RunRel tdir d files d' out) :
    d' = (processFiles tdir d files).1 ∧ out = (processFiles tdir d files).2 := by
  induction h with
  | done d => simp [processFiles]
  | copy d f fs dfin out hm _ ih =>
    simp only [processFiles, hm, if_pos]
    exact ⟨ih.1, by rw [ih.2]⟩
  | skip d f fs dfin out hm _ ih =>
    simp only [processFiles, hm, Bool.false_eq_true, if_neg, not_false_iff]
    exact ih

/-! ### Claim theorems -/

/-- Claim C1: during the recursive walk, a file is copied into the
fixture directory (one progress line per copy, in walk order) if and
only if its lowercased filename contains at least one of the substrings
`.jpg`, `.jpeg`, `.png` and at least one of `xray`, `panoramic`,
`intraoral`; the extension test is a loose substring match, not a
suffix check, so the name `myjpg.png.txt` passes the extension test. -/
theorem claim_c1_filter_iff (tdir : Path) (d : Dir) (files : List SrcFile) (n : List Char) :
    ((processFiles tdir d files).2
        = (files.filter (fun f => matchesName f.name)).map progressLine)
    ∧ (matchesName n = true ↔
        ((∃ e ∈ extMarkers, ∃ l r, lowerName n = l ++ e ++ r)
          ∧ (∃ k ∈ keywordTerms, ∃ l r, lowerName n = l ++ k ++ r)))
    ∧ hasExt (lowerName "myjpg.png.txt".data) = true := by
  refine ⟨processFiles_snd tdir files d, ?_, by decide⟩
  unfold matchesName hasExt hasKeyword
  simp only [Bool.and_eq_true, List.any_eq_true, containsSub_iff]

/-- Claim C2: the target slot is chosen by fixed keyword priority on
the lowercased name — `xray` wins, then `panoramic`, else the slot is
`intraoral.jpg` (and for a file that passed the keyword filter,
`intraoral` is then necessarily a substring); in particular a name
containing both `xray` and `panoramic` is always classified `xray.jpg`. -/
theorem claim_c2_priority (n : List Char) :
    (containsSub "xray".data (lowerName n) = true → targetName n = "xray.jpg".data)
    ∧ (containsSub "xray".data (lowerName n) = false →
        containsSub "panoramic".data (lowerName n) = true →
        targetName n = "panoramic.jpg".data)
    ∧ (containsSub "xray".data (lowerName n) = false →
        containsSub "panoramic".data (lowerName n) = false →
        targetName n = "intraoral.jpg".data
          ∧ (matchesName n = true → containsSub "intraoral".data (lowerName n) = true))
    ∧ (containsSub "xray".data (lowerName n) = true →
        containsSub "panoramic".data (lowerName n) = true →
        targetName n = "xray.jpg".data) := by
  refine ⟨?_, ?_, ?_, ?_⟩
  · intro h1
    simp [targetName, h1]
  · intro h1 h2
    simp [targetName, h1, h2]
  · intro h1 h2
    refine ⟨by simp [targetName, h1, h2], ?_⟩
    intro hm
    unfold matchesName at hm
    rw [Bool.and_eq_true] at hm
    have hk : hasKeyword (lowerName n) = true := hm.2
    have hd : containsSub "xray".data (lowerName n) = true
        ∨ containsSub "panoramic".data (lowerName n) = true
        ∨ containsSub "intraoral".data (lowerName n) = true := by
      unfold hasKeyword keywordTerms at hk
      simpa using hk
    rcases hd with h | h | h
    · simp [h] at h1
    · simp [h] at h2
    · exact h
  · intro h1 _
    simp [targetName, h1]

/-- Witness for C2 at concrete filenames, one per branch of the
priority cascade. -/
theorem claim_c2_priority_witness :
    targetName "a_xray.jpg".data = "xray.jpg".data
    ∧ targetName "b_panoramic.png".data = "panoramic.jpg".data
    ∧ targetName "c_intraoral.jpeg".data = "intraoral.jpg".data
    ∧ targetName "both_xray_panoramic.jpg".data = "xray.jpg".data := by
  have h1 := claim_c2_priority "a_xray.jpg".data
  have h2 := claim_c2_priority "b_panoramic.png".data
  have h3 := claim_c2_priority "c_intraoral.jpeg".data
  have h4 := claim_c2_priority "both_xray_panoramic.jpg".data
  exact ⟨h1.1 (by decide), h2.2.1 (by decide) (by decide),
    (h3.2.2.1 (by decide) (by decide)).1, h4.2.2.2 (by decide) (by decide)⟩

/-- Claim C3: copies overwrite the fixed target names, so after a run
the content of each fixture slot equals the bytes of the last file in
enumeration order that matched and was classified into that slot; when
no file was classified into the slot, its previous content remains. -/
theorem claim_c3_last_match_wins (tdir : Path) (d : Dir) (files : List SrcFile)
    (slot : List Char) (_hslot : slot ∈ slotNames) :
    lookupFile (processFiles tdir d files).1 (tdir ++ [slot]) =
      match lastMatchFor files slot with
      | some f => some f.content
      | none => lookupFile d (tdir ++ [slot]) := by
  rw [lookupFile_processFiles, lastWrite_slot]
  cases lastMatchFor files slot with
  | some f => simp
  | none => simp

/-- Witness for C3: two files both classified into `xray.jpg`; the
slot ends up holding the bytes of the second one. -/
theorem claim_c3_last_match_wins_witness :
    lookupFile (processFiles ["t".data] []
        [⟨"a_xray.png".data, [1]⟩, ⟨"b_xray.jpg".data, [2]⟩]).1
      (["t".data] ++ ["xray.jpg".data]) = some [2] :=
  (claim_c3_last_match_wins ["t".data] []
    [⟨"a_xray.png".data, [1]⟩, ⟨"b_xray.jpg".data, [2]⟩] "xray.jpg".data
    (by decide)).trans (by decide)

/-- Claim C4: matching and slot classification are evaluated on the
lowercased filename only — two names with the same lowercasing are
filtered and classified identically — while the copy itself stores the
original file's bytes; concretely, a source file `PANO_Xray_001.JPG`
matches and is copied, with its original content, to `xray.jpg`. -/
theorem claim_c4_case_insensitive (n m : List Char) (c : Content) (tdir : Path) (d : Dir)
    (h : lowerName n = lowerName m) :
    matchesName n = matchesName m
    ∧ targetName n = targetName m
    ∧ lookupFile (processFiles tdir d [⟨"PANO_Xray_001.JPG".data, c⟩]).1
        (tdir ++ ["xray.jpg".data]) = some c := by
  refine ⟨?_, ?_, ?_⟩
  · unfold matchesName
    rw [h]
  · unfold targetName
    rw [h]
  · have hm : matchesName "PANO_Xray_001.JPG".data = true := by decide
    have ht : targetName "PANO_Xray_001.JPG".data = "xray.jpg".data := by decide
    simp [processFiles, hm, ht, lookupFile_writeFile]

/-- Witness for C4: two spellings of the same name are treated
identically, and the mixed-case xray file lands in `xray.jpg` with its
original bytes. -/
theorem claim_c4_case_insensitive_witness :
    (matchesName "AbC_Xray.JPG".data = matchesName "abc_xray.jpg".data
      ∧ targetName "AbC_Xray.JPG".data = targetName "abc_xray.jpg".data
      ∧ lookupFile (processFiles ["t".data] [] [⟨"PANO_Xray_001.JPG".data, [7]⟩]).1
          (["t".data] ++ ["xray.jpg".data]) = some [7]) :=
  claim_c4_case_insensitive "AbC_Xray.JPG".data "abc_xray.jpg".data [7] ["t".data] []
    (by decide)

/-- Claim C5: when no file of the walk passes both filters the loop
still completes, performs no copies, prints nothing, and leaves the
pre-existing files of the target directory untouched. -/
theorem claim_c5_zero_match (tdir : Path) (d : Dir) (files : List SrcFile)
    (h : ∀ f ∈ files, matchesName f.name = false) :
    processFiles tdir d files = (d, []) := by
  induction files with
  | nil => rfl
  | cons f fs ih =>
    have hf := h f (List.mem_cons_self f fs)
    simp only [processFiles, hf, Bool.false_eq_true, if_neg, not_false_iff]
    exact ih (fun g hg => h g (List.mem_cons_of_mem f hg))

/-- Witness for C5: a walk containing a file with no image extension
substring and a file with no keyword leaves the pre-existing slot file
alone and produces no output. -/
theorem claim_c5_zero_match_witness :
    processFiles ["t".data] [(["t".data, "old.jpg".data], [9])]
        [⟨"readme.txt".data, [1]⟩, ⟨"xray.bmp".data, [2]⟩]
      = ([(["t".data, "old.jpg".data], [9])], []) :=
  claim_c5_zero_match ["t".data] [(["t".data, "old.jpg".data], [9])]
    [⟨"readme.txt".data, [1]⟩, ⟨"xray.bmp".data, [2]⟩] (by decide)

/-- Claim C6: running the installer a second time on the same unchanged
download result changes nothing — the directory set is identical and
every path holds identical file content after the second run. -/
theorem claim_c6_idempotent (script : Path) (fs : FS) (files : List SrcFile) (p : Path) :
    lookupFile (installFixtures script (installFixtures script fs files).1 files).1.files p
      = lookupFile (installFixtures script fs files).1.files p
    ∧ (installFixtures script (installFixtures script fs files).1 files).1.dirs
      = (installFixtures script fs files).1.dirs := by
  constructor
  · show lookupFile (processFiles (testDirOf script)
        (processFiles (testDirOf script) fs.files files).1 files).1 p
      = lookupFile (processFiles (testDirOf script) fs.files files).1 p
    simp only [lookupFile_processFiles]
    cases lastWrite (testDirOf script) files p <;> simp
  · exact makedirs_idem fs.dirs (testDirOf script)

/-- Claim C7: before any copy, the target directory is the fixed path
`test/images` under the script's parent-of-parent directory, and it is
created together with every missing intermediate directory; the
creation is idempotent, keeps every existing directory, and cannot fail
when the directory already exists. -/
theorem claim_c7_target_dir (script : Path) (fs : FS) (srcFiles : List SrcFile) (q : Path) :
    (installFixtures script fs srcFiles).1.dirs = makedirs fs.dirs (testDirOf script)
    ∧ testDirOf script = dirname (dirname script) ++ ["test".data, "images".data]
    ∧ testDirOf script ∈ makedirs fs.dirs (testDirOf script)
    ∧ (q ∈ ancestorsOf (testDirOf script) → q ∈ makedirs fs.dirs (testDirOf script))
    ∧ (q ∈ fs.dirs → q ∈ makedirs fs.dirs (testDirOf script))
    ∧ makedirs (makedirs fs.dirs (testDirOf script)) (testDirOf script)
        = makedirs fs.dirs (testDirOf script) := by
  refine ⟨rfl, rfl, ?_, ?_, ?_, makedirs_idem _ _⟩
  · exact mem_foldl_addDir_of_mem_list _ _ _
      (self_mem_ancestorsOf _ (by simp [testDirOf]))
  · exact fun h => mem_foldl_addDir_of_mem_list _ _ _ h
  · exact fun h => mem_foldl_addDir_of_mem _ _ _ h

/-- Witness for C7: with the script at
`server/scripts/download_dataset.py`, the missing intermediate
directory `server/test` gets created, and a pre-existing directory
`server` survives the creation step. -/
theorem claim_c7_target_dir_witness :
    (["server".data, "test".data]
        ∈ makedirs []
            (testDirOf ["server".data, "scripts".data, "download_dataset.py".data]))
    ∧ (["server".data]
        ∈ makedirs [["server".data]]
            (testDirOf ["server".data, "scripts".data, "download_dataset.py".data])) := by
  have h1 := claim_c7_target_dir
    ["server".data, "scripts".data, "download_dataset.py".data] ⟨[], []⟩ []
    ["server".data, "test".data]
  have h2 := claim_c7_target_dir
    ["server".data, "scripts".data, "download_dataset.py".data] ⟨[["server".data]], []⟩ []
    ["server".data]
  exact ⟨h1.2.2.2.1 (by decide), h2.2.2.2.2.1 (by decide)⟩

theorem processFilesExc_error (copyFails : SrcFile → Bool) (tdir : Path) :
    ∀ (files : List SrcFile) (d derr : Dir),
      processFilesExc copyFails tdir d files = .error derr →
        ∃ pre f post, files = pre ++ f :: post
          ∧ matchesName f.name = true ∧ copyFails f = true
          ∧ derr = (processFiles tdir d pre).1
  | [], d, derr => by
    intro h
    simp [processFilesExc] at h
  | f :: fs, d, derr => by
    intro h
    by_cases hm : matchesName f.name
    · by_cases hc : copyFails f
      · simp only [processFilesExc, hm, hc, if_pos] at h
        injection h with h'
        exact ⟨[], f, fs, rfl, hm, hc, by simp [processFiles, h']⟩
      · simp only [processFilesExc, hm, hc, if_pos, Bool.false_eq_true, if_neg,
          not_false_iff] at h
        cases hrec : processFilesExc copyFails tdir
            (writeFile d (tdir ++ [targetName f.name]) f.content) fs with
        | ok r =>
          rw [hrec] at h
          exact absurd h (by simp)
        | error d' =>
          rw [hrec] at h
          injection h with h'
          obtain ⟨pre, g, post, he, hg1, hg2, hd⟩ :=
            processFilesExc_error copyFails tdir fs _ _ hrec
          refine ⟨f :: pre, g, post, by rw [he]; rfl, hg1, hg2, ?_⟩
          rw [← h', hd]
          simp [processFiles, hm]
    · simp only [processFilesExc, hm, Bool.false_eq_true, if_neg, not_false_iff] at h
      obtain ⟨pre, g, post, he, hg1, hg2, hd⟩ :=
        processFilesExc_error copyFails tdir fs _ _ h
      refine ⟨f :: pre, g, post, by rw [he]; rfl, hg1, hg2, ?_⟩
      rw [hd]
      simp [processFiles, hm]

/-- Claim C8: no exception is caught — a download failure, a directory
creation failure, or a copy failure terminates the run and propagates
to the caller, and on a copy failure the file store is exactly the
result of the walk prefix completed before the failing file: every
already-copied fixture file is retained, none is rolled back. -/
theorem claim_c8_error_propagation :
    (∀ (copyFails : SrcFile → Bool) (tdir : Path) (d : Dir) (files : List SrcFile)
        (derr : Dir),
      processFilesExc copyFails tdir d files = .error derr →
        ∃ pre f post, files = pre ++ f :: post
          ∧ matchesName f.name = true ∧ copyFails f = true
          ∧ derr = (processFiles tdir d pre).1)
    ∧ (∀ (mkdirFails : Bool) (copyFails : SrcFile → Bool) (script : Path) (fs : FS),
        installFixturesExc (.error ()) mkdirFails copyFails script fs
          = .error (.downloadError, fs))
    ∧ (∀ (srcFiles : List SrcFile) (copyFails : SrcFile → Bool) (script : Path) (fs : FS),
        installFixturesExc (.ok srcFiles) true copyFails script fs
          = .error (.filesystemError, fs))
    ∧ (∀ (srcFiles : List SrcFile) (copyFails : SrcFile → Bool) (script : Path) (fs : FS)
        (derr : Dir),
        processFilesExc copyFails (testDirOf script) fs.files srcFiles = .error derr →
          installFixturesExc (.ok srcFiles) false copyFails script fs
            = .error (.filesystemError, ⟨makedirs fs.dirs (testDirOf script), derr⟩)) := by
  refine ⟨?_, fun _ _ _ _ => rfl, fun _ _ _ _ => rfl, ?_⟩
  · intro copyFails tdir d files derr h
    exact processFilesExc_error copyFails tdir files d derr h
  · intro srcFiles copyFails script fs derr h
    simp [installFixturesExc, h]

/-- Witness for C8: a failing copy surfaces with the store as it was,
a failed download propagates, and a failed directory creation
propagates, each at a concrete input. -/
theorem claim_c8_error_propagation_witness :
    (∃ pre f post, ([⟨"a_xray.png".data, [1]⟩] : List SrcFile) = pre ++ f :: post
      ∧ matchesName f.name = true ∧ (fun (_ : SrcFile) => true) f = true
      ∧ ([] : Dir) = (processFiles ["t".data] [] pre).1)
    ∧ installFixturesExc (.error ()) false (fun _ => false) [] ⟨[], []⟩
        = .error (.downloadError, ⟨[], []⟩)
    ∧ installFixturesExc (.ok []) true (fun _ => false) [] ⟨[], []⟩
        = .error (.filesystemError, ⟨[], []⟩)
    ∧ installFixturesExc (.ok [⟨"a_xray.png".data, [1]⟩]) false (fun _ => true)
        ["s".data] ⟨[], []⟩
        = .error (.filesystemError, ⟨makedirs [] (testDirOf ["s".data]), []⟩) :=
  ⟨claim_c8_error_propagation.1 (fun _ => true) ["t".data] [] [⟨"a_xray.png".data, [1]⟩]
      [] rfl,
    claim_c8_error_propagation.2.1 false (fun _ => false) [] ⟨[], []⟩,
    claim_c8_error_propagation.2.2.1 [] (fun _ => false) [] ⟨[], []⟩,
    claim_c8_error_propagation.2.2.2 [⟨"a_xray.png".data, [1]⟩] (fun _ => true)
      ["s".data] ⟨[], []⟩ [] rfl⟩

/-- Claim C9 as stated is false on the code: when the target
directory's parents do not exist yet, `os.makedirs` also creates them,
so a path that is neither the target directory nor one of the three
fixture files is written.  Concretely, on an empty filesystem with the
script at `server/scripts/download_dataset.py`, the run creates the
directory `server`, which was not present before, is not the target
directory `server/test/images`, and is not one of the three fixture
file paths inside it. -/
theorem claim_c9_counterexample :
    (["server".data]
        ∈ (installFixtures ["server".data, "scripts".data, "download_dataset.py".data]
            ⟨[], []⟩ []).1.dirs)
    ∧ ["server".data] ∉ ([] : List Path)
    ∧ ["server".data]
        ≠ testDirOf ["server".data, "scripts".data, "download_dataset.py".data]
    ∧ ∀ n ∈ slotNames,
        ["server".data]
          ≠ testDirOf ["server".data, "scripts".data, "download_dataset.py".data]
              ++ [n] := by
  decide

/-- Claim C9 (amended): the only filesystem paths the installer ever
writes are the target directory together with its missing ancestor
directories created by the pre-creation step, and the three fixed file
names `xray.jpg`, `panoramic.jpg`, `intraoral.jpg` inside the target
directory; no other directory entry appears and no other path's file
content changes. -/
theorem claim_c9_frame (script : Path) (fs : FS) (srcFiles : List SrcFile) (q p : Path) :
    (q ∈ (installFixtures script fs srcFiles).1.dirs →
      q ∈ fs.dirs ∨ q ∈ ancestorsOf (testDirOf script))
    ∧ (lookupFile (installFixtures script fs srcFiles).1.files p ≠ lookupFile fs.files p →
        ∃ n ∈ slotNames, p = testDirOf script ++ [n]) := by
  constructor
  · intro h
    exact mem_of_mem_foldl_addDir _ _ _ h
  · intro h
    have h' : lookupFile (processFiles (testDirOf script) fs.files srcFiles).1 p
        ≠ lookupFile fs.files p := h
    rw [lookupFile_processFiles] at h'
    cases hlw : lastWrite (testDirOf script) srcFiles p with
    | none =>
      rw [hlw] at h'
      exact absurd rfl h'
    | some c =>
      obtain ⟨f, _, _, hp, _⟩ := lastWrite_eq_some _ _ _ _ hlw
      exact ⟨targetName f.name, targetName_mem_slotNames f.name, hp⟩

/-- Witness for the amended C9: in a concrete run, the created
directory `server` is among the target directory's ancestors, and the
one changed file path is one of the three fixture names. -/
theorem claim_c9_frame_witness :
    ((["server".data] ∈ ([] : List Path)
        ∨ ["server".data] ∈ ancestorsOf
            (testDirOf ["server".data, "scripts".data, "download_dataset.py".data]))
      ∧ ∃ n ∈ slotNames,
          testDirOf ["server".data, "scripts".data, "download_dataset.py".data]
              ++ ["xray.jpg".data]
            = testDirOf ["server".data, "scripts".data, "download_dataset.py".data]
              ++ [n]) := by
  have h := claim_c9_frame ["server".data, "scripts".data, "download_dataset.py".data]
    ⟨[], []⟩ [⟨"a_xray.png".data, [1]⟩] ["server".data]
    (testDirOf ["server".data, "scripts".data, "download_dataset.py".data]
      ++ ["xray.jpg".data])
  exact ⟨h.1 (by decide), h.2 (by decide)⟩

/-- Claim C10: the copy loop is deterministic — any two runs from the
same store over the same walk in the same enumeration order produce the
same final store and the same sequence of progress lines, namely the
ones computed by `processFiles`. -/
theorem claim_c10_deterministic (tdir : Path) (d : Dir) (files : List SrcFile)
    (d1 d2 : Dir) (out1 out2 : List (List Char))
    (h1 : RunRel tdir d files d1 out1) (h2 : RunRel tdir d files d2 out2) :
    d1 = d2 ∧ out1 = out2
    ∧ d1 = (processFiles tdir d files).1 ∧ out1 = (processFiles tdir d files).2 := by
  obtain ⟨e1, e2⟩ := runRel_eq_processFiles _ _ _ _ _ h1
  obtain ⟨e3, e4⟩ := runRel_eq_processFiles _ _ _ _ _ h2
  exact ⟨e1.trans e3.symm, e2.trans e4.symm, e1, e2⟩

/-- Witness for C10: a one-copy run related twice to the loop yields
the same store and the same single progress line. -/
theorem claim_c10_deterministic_witness :
    (writeFile [] (["t".data] ++ [targetName "a_xray.png".data]) [1]
        = writeFile [] (["t".data] ++ [targetName "a_xray.png".data]) [1])
    ∧ ([progressLine ⟨"a_xray.png".data, [1]⟩] = [progressLine ⟨"a_xray.png".data, [1]⟩])
    ∧ writeFile [] (["t".data] ++ [targetName "a_xray.png".data]) [1]
        = (processFiles ["t".data] [] [⟨"a_xray.png".data, [1]⟩]).1
    ∧ [progressLine ⟨"a_xray.png".data, [1]⟩]
        = (processFiles ["t".data] [] [⟨"a_xray.png".data, [1]⟩]).2 := by
  have hrun : RunRel ["t".data] [] [⟨"a_xray.png".data, [1]⟩]
      (writeFile [] (["t".data] ++ [targetName "a_xray.png".data]) [1])
      [progressLine ⟨"a_xray.png".data, [1]⟩] :=
    RunRel.copy [] ⟨"a_xray.png".data, [1]⟩ []
      (writeFile [] (["t".data] ++ [targetName "a_xray.png".data]) [1]) []
      (by decide) (RunRel.done _)
  exact claim_c10_deterministic _ _ _ _ _ _ _ hrun hrun

end InsmileAI
